import Mathlib

/-!
Verification of the go-git core (object resolution, reference resolution,
commit cache, commit graph traversal) against its specification.

The Go source is shallowly embedded: object identifiers are modelled as
`Nat` (equality is byte-for-byte on the 20-byte hash, which an abstract
identifier with decidable equality captures), file contents as `List Char`,
committer timestamps as `Int`, and the external decoders
(`readObjectFile`, `readObjectBytes`, `parseCommitData`) as function-valued
fields of the repository model, exactly as the spec treats them: opaque
collaborators returning a typed result or an error.
-/

namespace GoGit

/-- Error taxonomy of the library (spec §7).  Each Go error value is one
constructor, so distinctness of error kinds is distinctness of
constructors. -/
inductive GitError
  | objectNotFound (id : Nat)
  | refNotFound (path : String)
  | noPackedRefs
  | parseError (msg : String)
  | ioError (code : Nat)
  deriving DecidableEq, Repr

/-! ## Object resolution layer (`repo_object.go`) -/

/-- `type ObjectType int` with four constants. -/
abbrev ObjectType := Int

def ObjectCommit : ObjectType := 0x10
def ObjectTree : ObjectType := 0x20
def ObjectBlob : ObjectType := 0x30
def ObjectTag : ObjectType := 0x40

/-- `func (t ObjectType) String() string` — switch with a default returning
the empty string. -/
def ObjectType.string (t : ObjectType) : String :=
  if t = ObjectCommit then "commit"
  else if t = ObjectTree then "tree"
  else if t = ObjectBlob then "blob"
  else ""

/-- `type Object struct { Type ObjectType; Size int64; Data io.ReadCloser }`.
The byte stream is abstracted to a `Nat` handle: the claims only require
that it is returned verbatim. -/
structure Object where
  type : ObjectType
  size : Int
  data : Nat
  deriving DecidableEq

/-- Result of `readObjectFile` on the loose path of an id: success, a
not-exist error (`os.IsNotExist`), or some other I/O error. -/
inductive LooseResult
  | found (o : Object)
  | notExist
  | ioError (code : Nat)
  deriving DecidableEq

/-- `type idxFile` — one pack index: archive path plus the
`offsetValues` mapping from identifier to byte offset. -/
structure IdxFile where
  packpath : Nat
  offsetValues : Nat → Option Nat

/-- The part of the repository handle `getRawObject` reads.
`readLoose id metaOnly` stands for
`readObjectFile(filepathFromSHA1(repo.Path, id.String()), metaOnly)`
(the loose path is a deterministic function of the id, so the id indexes
it directly); `readPack packpath offset metaOnly` stands for
`readObjectBytes(pack.packpath, &repo.indexfiles, offset, metaOnly)`. -/
structure ObjRepo where
  readLoose : Nat → Bool → LooseResult
  indexfiles : List IdxFile
  readPack : Nat → Nat → Bool → Except Nat Object

/-- `func (repo *Repository) findObjectPack(id ObjectID) (*idxFile, uint64)` —
linear scan of `repo.indexfiles`, first index whose `offsetValues`
contains `id` wins; `nil` (here `none`) when no index contains it. -/
def findObjectPack (files : List IdxFile) (id : Nat) : Option (IdxFile × Nat) :=
  match files with
  | [] => none
  | indexfile :: rest =>
    match indexfile.offsetValues id with
    | some offset => some (indexfile, offset)
    | none => findObjectPack rest id

/-- `func (repo *Repository) getRawObject(id ObjectID, metaOnly bool)`.
The source calls `findObjectPack` twice (once discarding the offset);
it is pure, so a single match has the same result. -/
def getRawObject (repo : ObjRepo) (id : Nat) (metaOnly : Bool) : Except GitError Object :=
  match repo.readLoose id metaOnly with
  | .found o => .ok o
  | .ioError code => .error (.ioError code)
  | .notExist =>
    match findObjectPack repo.indexfiles id with
    | none => .error (.objectNotFound id)
    | some (pack, offset) =>
      match repo.readPack pack.packpath offset metaOnly with
      | .error code => .error (.ioError code)
      | .ok o => .ok o

/-- Spec-side description of the pack scan (spec §4.1 step 2): the first
index in discovery order whose mapping contains the id. -/
def specFirstPack (files : List IdxFile) (id : Nat) : Option IdxFile :=
  files.find? (fun f => (f.offsetValues id).isSome)

/-! ## Reference resolution layer -/

/-- `type packedRef struct { commit string; refpath string }` -/
structure PackedRef where
  commit : String
  refpath : String
  deriving DecidableEq

/-- Helper for `goFields`: split the remaining characters around runs of
whitespace, accumulating the current token reversed. -/
def goFieldsAux : List Char → List Char → List (List Char)
  | [], acc => if acc = [] then [] else [acc.reverse]
  | c :: cs, acc =>
    if c.isWhitespace then
      if acc = [] then goFieldsAux cs []
      else acc.reverse :: goFieldsAux cs []
    else goFieldsAux cs (c :: acc)

/-- `strings.Fields`: the maximal whitespace-free tokens of a line, in
order, with no empty tokens. -/
def goFields (line : String) : List String :=
  (goFieldsAux line.data []).map String.mk

/-- `strings.HasPrefix`, on the underlying characters. -/
def goHasPrefix (p s : String) : Bool :=
  List.isPrefixOf p.data s.data

/-- `func parseRefLine(line string) (packedRef, error)`: exactly two
whitespace-separated fields, a 40-byte first field, and a second field
starting with `refs/`; anything else is a parse error for that line. -/
def parseRefLine (line : String) : Except GitError PackedRef :=
  match goFields line with
  | [f0, f1] =>
    if f0.length ≠ 40 then .error (.parseError "could not parse ref from line")
    else if ¬ (goHasPrefix "refs/" f1) then .error (.parseError "could not parse ref from line")
    else .ok { commit := f0, refpath := f1 }
  | _ => .error (.parseError "could not parse ref from line")

/-- The scan loop of `getCommitIdOfPackedRef`: first line that parses and
whose refpath equals the query wins; lines that fail to parse are skipped;
an exhausted scan is `RefNotFound`. -/
def scanPackedLines (refpath : String) : List String → Except GitError String
  | [] => .error (.refNotFound refpath)
  | line :: rest =>
    match parseRefLine line with
    | .ok r => if r.refpath = refpath then .ok r.commit else scanPackedLines refpath rest
    | .error _ => scanPackedLines refpath rest

/-- Result of `ioutil.ReadFile` on a loose ref path. -/
inductive ReadResult
  | ok (content : List Char)
  | notExist
  | ioError (code : Nat)

/-- The filesystem a repository's ref lookups see: loose ref files by
repository-relative path, and the `packed-refs` file as a list of lines
(`none` when the file does not exist). -/
structure RefFS where
  loose : String → ReadResult
  packed : Option (List String)

/-- `func (repo *Repository) getCommitIdOfPackedRef(refpath string)`:
`ErrNoPackedRefs` when the packed-refs file is absent, otherwise a linear
scan of its lines. -/
def getCommitIdOfPackedRef (fs : RefFS) (refpath : String) : Except GitError String :=
  match fs.packed with
  | none => .error .noPackedRefs
  | some lines => scanPackedLines refpath lines

/-- The characters of a line up to its first newline; `none` when the
string has no newline (so the regex `ref: (.*)\n` cannot complete). -/
def takeToNewline : List Char → Option (List Char)
  | [] => none
  | c :: cs => if c = '\n' then some [] else (takeToNewline cs).map (fun l => c :: l)

/-- Does the text start with the literal `ref: `? If so, return the rest. -/
def stripRefColon : List Char → Option (List Char)
  | 'r' :: 'e' :: 'f' :: ':' :: ' ' :: rest => some rest
  | _ => none

/-- `refRexp.FindAllStringSubmatch(f, 1)` for `refRexp = "ref: (.*)\n"`:
the leftmost position where `ref: ` occurs and is followed on the same
line by a newline; the capture group is the text between `ref: ` and that
newline (`.` does not match a newline, so the match cannot cross one). -/
def findRefTarget : List Char → Option (List Char)
  | [] => none
  | c :: cs =>
    match stripRefColon (c :: cs) with
    | some rest =>
      match takeToNewline rest with
      | some cap => some cap
      | none => findRefTarget cs
    | none => findRefTarget cs

/-- Modelled from the spec: `IsObjectIDHex` is not among the source files;
the spec fixes the canonical identifier form as 40 lowercase hex
characters, so the check is: length 40 and every character in `0-9a-f`. -/
def IsObjectIDHex (s : List Char) : Bool :=
  s.length = 40 && s.all (fun c => ('0' ≤ c && c ≤ '9') || ('a' ≤ c && c ≤ 'f'))

/-- `func (repo *Repository) getCommitIdOfRef(refpath string)`, the body up
to the `goto start` jump: one read of the ref (loose, falling back to
packed), then either a symbolic-indirection target or a final result. -/
def resolveRefStep (fs : RefFS) (refpath : String) :
    Except GitError (Sum String String) :=
  -- `.inl target` is the `ref: target` indirection case (loop again);
  -- `.inr id` is a concrete identifier.
  match
    (match fs.loose refpath with
     | .ok f => .ok f
     | .ioError code => .error (.ioError code)
     | .notExist =>
       match getCommitIdOfPackedRef fs refpath with
       | .error .noPackedRefs => .error (.refNotFound refpath)
       | .error e => .error e
       | .ok s => .ok s.data : Except GitError (List Char)) with
  | .error e => .error e
  | .ok f =>
    match findRefTarget f with
    | some target => .ok (.inl (String.mk target))
    | none =>
      if f.length < 40 then .error (.parseError "ObjectID hash too short")
      else
        let id := f.take 40
        if IsObjectIDHex id then .ok (.inr (String.mk id))
        else .error (.parseError "heads file wrong ObjectID string")

/-- The full `getCommitIdOfRef` loop (`start: ... goto start`).  The source
has no bound on the number of indirections, so the embedding is indexed by
the number of loop iterations still allowed: `none` means the computation
has not finished within that many iterations. -/
def getCommitIdOfRef (fs : RefFS) : Nat → String → Option (Except GitError String)
  | 0, _ => none
  | n + 1, refpath =>
    match resolveRefStep fs refpath with
    | .error e => some (.error e)
    | .ok (.inr id) => some (.ok id)
    | .ok (.inl target) => getCommitIdOfRef fs n target

/-! ## Commit records, the commit cache (`getCommit`) -/

/-- The structured commit record produced by `parseCommitData` and
completed by `getCommit` (`commit.Id = id`).  The committer timestamp
`Committer.When` is modelled as an integer instant: `time.Equal` is `=`,
`After` is `>`, `Before` is `<`.  The back-reference `commit.repo` carries
no data and is not modelled. -/
structure Commit where
  id : Nat
  parents : List Nat
  whenT : Int
  message : String
  deriving DecidableEq, Repr

/-- The part of the repository handle `getCommit` reads and writes:
`object id` stands for `repo.object(id, false)`, `parseCommitData` for the
external commit-body parser applied to the object's data stream, and
`commitCache` for the `map[ObjectID]*Commit` field, `none` while still
`nil`. -/
structure CRepo where
  object : Nat → Except GitError Object
  parseCommitData : Nat → Except GitError Commit
  commitCache : Option (Nat → Option Commit)

/-- Lookup in the commit cache; a `nil` map has no entries. -/
def cacheLookup (r : CRepo) (id : Nat) : Option Commit :=
  match r.commitCache with
  | none => none
  | some f => f id

/-- The cache-miss path of `getCommit`: resolve the object, parse the
commit body, set `Id`, insert into the cache.  The third component counts
the object resolutions performed (1 on this path, whether or not it
succeeds). -/
def getCommitMiss (r : CRepo) (id : Nat) : Except GitError Commit × CRepo × Nat :=
  match r.object id with
  | .error e => (.error e, r, 1)
  | .ok o =>
    match r.parseCommitData o.data with
    | .error e => (.error e, r, 1)
    | .ok c0 =>
      let commit : Commit := { c0 with id := id }
      let cache := fun j => if j = id then some commit else cacheLookup r j
      (.ok commit, { r with commitCache := some cache }, 1)

/-- `func (repo *Repository) getCommit(id ObjectID) (*Commit, error)`:
check the cache (initializing it when still `nil`), and on a miss resolve,
parse and memoize.  State passing makes the cache mutation explicit; the
third component counts object resolutions (0 on a cache hit). -/
def getCommit (r : CRepo) (id : Nat) : Except GitError Commit × CRepo × Nat :=
  match r.commitCache with
  | some cache =>
    match cache id with
    | some c => (.ok c, r, 0)
    | none => getCommitMiss r id
  | none => getCommitMiss { r with commitCache := some (fun _ => none) } id

/-! ## Commit graph traversal

`getCommit` returns, for a given identifier, one fixed record (§4.3:
deterministic resolution plus a memo cache), so the traversal layer sees
the repository as a partial map `Nat → Option Commit` from identifier to
commit record; `none` covers both resolution and parse failure. -/

/-- Modelled from the spec: `Commit.Parent(i)` is not among the source
files; per the spec (§3, §4.4) it lazily resolves the `i`-th parent
identifier through the owning repository's `getCommit`. -/
def parentCommit (g : Nat → Option Commit) (c : Commit) (i : Nat) : Option Commit :=
  match c.parents.get? i with
  | none => none
  | some pid => g pid

/-- The `for` loop of `CommitsBetween`: stop (excluding) at `before`'s id,
push the current commit, stop after pushing a parentless commit, else step
to `Parent(0)`.  Indexed by loop iterations allowed; `none` is a parent
lookup failure or an exhausted index. -/
def commitsBetweenLoop (g : Nat → Option Commit) (before : Commit) :
    Nat → Commit → List Commit → Option (List Commit)
  | 0, _, _ => none
  | fuel + 1, cur, l =>
    if cur.id = before.id then some l
    else
      let l' := l ++ [cur]
      if cur.parents.length = 0 then some l'
      else
        match parentCommit g cur 0 with
        | none => none
        | some p => commitsBetweenLoop g before fuel p l'

/-- `func (repo *Repository) CommitsBetween(last *Commit, before *Commit)`:
empty result when `last` is `nil` or has no parents, else the first-parent
walk from `last`.  (`before` must be non-nil: the source dereferences
`before.Id` unconditionally.) -/
def CommitsBetween (g : Nat → Option Commit) (fuel : Nat)
    (last : Option Commit) (before : Commit) : Option (List Commit) :=
  match last with
  | none => some []
  | some lastc =>
    if lastc.parents.length = 0 then some []
    else commitsBetweenLoop g before fuel lastc []

/-- Spec-side restatement of `ancestorsBetween` (§4.4), written from the
spec's words: the sequence of commits reached following only the first
parent from the current commit, newest first; stop without including a
commit whose id equals `before`'s; stop after including a parentless
commit (the root) even if `before` was never met. -/
def specAncestorsFrom (g : Nat → Option Commit) (before : Commit) :
    Nat → Commit → Option (List Commit)
  | 0, _ => none
  | fuel + 1, cur =>
    if cur.id = before.id then some []
    else if cur.parents.length = 0 then some [cur]
    else
      match parentCommit g cur 0 with
      | none => none
      | some p => (specAncestorsFrom g before fuel p).map (fun rest => cur :: rest)

/-- Spec-side `ancestorsBetween`: empty when `last` is absent or has no
parents, else the first-parent sequence from `last` excluding `before`. -/
def specAncestorsBetween (g : Nat → Option Commit) (fuel : Nat)
    (last : Option Commit) (before : Commit) : Option (List Commit) :=
  match last with
  | none => some []
  | some lastc =>
    if lastc.parents.length = 0 then some []
    else specAncestorsFrom g before fuel lastc

/-! ### `commitsBefore` (`ancestorsBefore`)

The result `container/list` is modelled as a list of
(element token, commit) pairs: a token is the identity of one
`*list.Element`, so anchors (`parent *list.Element`) are tokens and
survive later insertions elsewhere in the list. -/

/-- The traversal state: the result list so far plus the next fresh
element token. -/
structure TravState where
  list : List (Nat × Commit)
  next : Nat
  deriving DecidableEq, Repr

/-- The suffix of the result list starting at the element with token `t`:
that element and what follows it (`none` when `t` is not in the list,
which cannot arise from `commitsBefore` itself). -/
def splitTok : List (Nat × Commit) → Nat → Option ((Nat × Commit) × List (Nat × Commit))
  | [], _ => none
  | e :: rest, t => if e.1 = t then some (e, rest) else splitTok rest t

/-- The forward scan of `commitsBefore` from the anchor, on the suffix
starting there.  `none`: a node with the commit's own id was reached
(`in.Value.(*Commit).Id == commit.Id`) — return without inserting.
`some t`: insert after the element with token `t`, on `in.Next() == nil`,
equal committer instants, or the newer-to-older sandwich
(`in` after the commit, `in.Next()` before it). -/
def scanIns (c : Commit) : (Nat × Commit) → List (Nat × Commit) → Option Nat
  | (t, x), rest =>
    if x.id = c.id then none
    else
      match rest with
      | [] => some t
      | (t', y) :: rest' =>
        if x.whenT = c.whenT then some t
        else if c.whenT < x.whenT ∧ y.whenT < c.whenT then some t
        else scanIns c (t', y) rest'

/-- `l.InsertAfter(commit, in)`: splice a new element directly after the
element with token `t`. -/
def insertAfterTok (e : Nat × Commit) (t : Nat) : List (Nat × Commit) → List (Nat × Commit)
  | [] => []
  | x :: rest => if x.1 = t then x :: e :: rest else x :: insertAfterTok e t rest

mutual

/-- `func (repo *Repository) commitsBefore(lock, l, parent, id, limit)`:
fetch the commit; with no anchor push it at the tail, otherwise scan
forward from the anchor and insert (or stop on a duplicate hit); a merge
commit (more than one parent) makes its own element the anchor for its
parents; recurse into every parent in index order.  The unused `lock` and
`limit` parameters carry no behaviour and are omitted.  Indexed by
recursion depth allowed; `none` is a `getCommit` failure, a dangling
anchor, or exhausted depth. -/
def commitsBefore (g : Nat → Option Commit) :
    Nat → TravState → Option Nat → Nat → Option TravState
  | 0, _, _, _ => none
  | fuel + 1, st, parent, id =>
    match g id with
    | none => none
    | some commit =>
      match parent with
      | none =>
        let e := st.next
        let st' : TravState := ⟨st.list ++ [(e, commit)], st.next + 1⟩
        let pr := if commit.parents.length > 1 then some e else none
        commitsBeforeParents g fuel st' pr commit.parents
      | some p =>
        match splitTok st.list p with
        | none => none
        | some (hd, rest) =>
          match scanIns commit hd rest with
          | none => some st
          | some t =>
            let e := st.next
            let st' : TravState := ⟨insertAfterTok (e, commit) t st.list, st.next + 1⟩
            let pr := if commit.parents.length > 1 then some e else some p
            commitsBeforeParents g fuel st' pr commit.parents

/-- The parent loop at the end of `commitsBefore`: recurse into each
parent id in order, threading the traversal state. -/
def commitsBeforeParents (g : Nat → Option Commit) :
    Nat → TravState → Option Nat → List Nat → Option TravState
  | _, st, _, [] => some st
  | 0, _, _, _ :: _ => none
  | fuel + 1, st, pr, pid :: rest =>
    match commitsBefore g fuel st pr pid with
    | none => none
    | some st' => commitsBeforeParents g fuel st' pr rest

end

/-- `getCommitsBefore`: run `commitsBefore` on a fresh list with no
anchor. -/
def getCommitsBefore (g : Nat → Option Commit) (fuel : Nat) (id : Nat) : Option TravState :=
  commitsBefore g fuel ⟨[], 0⟩ none id

/-- The identifiers of the result sequence, in list order. -/
def resultIds (st : TravState) : List Nat :=
  st.list.map (fun e => e.2.id)

/-- Spec-side restatement of the packed-refs lookup (§4.2.1): among the
lines that parse, the first whose ref-path equals the query supplies the
identifier. -/
def specPackedLookup (refpath : String) (lines : List String) : Option String :=
  ((lines.filterMap (fun l => (parseRefLine l).toOption)).find?
    (fun r => r.refpath = refpath)).map (fun r => r.commit)

/-! ## Concrete fixtures -/

/-- A merge whose two lineages share the root `3`, with the root's
committer instant equal to commit `1`'s: the scan inserting the second
occurrence of `3` stops at commit `1` (equal instants) before reaching
the first occurrence of `3`. -/
def gDup : Nat → Option Commit := fun i =>
  if i = 0 then some ⟨0, [1, 2], 4, ""⟩
  else if i = 1 then some ⟨1, [3], 3, ""⟩
  else if i = 2 then some ⟨2, [3], 2, ""⟩
  else if i = 3 then some ⟨3, [], 3, ""⟩
  else none

/-- A root commit used to exhibit the duplicate-hit short-circuit. -/
def cHitW : Commit := ⟨3, [], 1, ""⟩

/-- Graph holding only `cHitW`. -/
def gHitW : Nat → Option Commit := fun i => if i = 3 then some cHitW else none

/-- A cyclic ref graph: `refs/heads/a` points at `refs/heads/b` and back. -/
def cycFS : RefFS :=
  { loose := fun p =>
      if p = "refs/heads/a" then .ok ("ref: refs/heads/b\n".data)
      else if p = "refs/heads/b" then .ok ("ref: refs/heads/a\n".data)
      else .notExist
    packed := none }

/-- A loose object for the object-resolution fixtures. -/
def objW : Object := ⟨ObjectCommit, 7, 11⟩

/-- A packed object for the object-resolution fixtures. -/
def packObjW : Object := ⟨ObjectBlob, 9, 12⟩

/-- A pack index containing only id `2`, at offset `333` of archive `100`. -/
def idxW : IdxFile := ⟨100, fun i => if i = 2 then some 333 else none⟩

/-- Repository with id `1` loose, id `2` only in the second pack index,
and everything else absent. -/
def repoW : ObjRepo :=
  { readLoose := fun i _ => if i = 1 then .found objW else .notExist
    indexfiles := [⟨200, fun _ => none⟩, idxW]
    readPack := fun pp off _ =>
      if pp = 100 ∧ off = 333 then .ok packObjW else .error 9 }

/-- Repository whose loose store fails with a non-not-exist I/O error. -/
def repoIOErrW : ObjRepo :=
  { readLoose := fun _ _ => .ioError 13
    indexfiles := [idxW]
    readPack := fun _ _ _ => .error 9 }

/-- A packed-refs fixture: a comment line, a tag entry, a peel
annotation, a corrupt line, and the queried branch entry. -/
def packedLinesW : List String :=
  ["# pack-refs with: peeled",
   "aaaaaaaaaaaaaaaaaaaaaaaaaaaaaaaaaaaaaaaa refs/tags/v1",
   "^bbbbbbbbbbbbbbbbbbbbbbbbbbbbbbbbbbbbbbbb",
   "badline",
   "cccccccccccccccccccccccccccccccccccccccc refs/heads/main"]

/-- Ref filesystem with only the packed-refs fixture. -/
def fsPackedW : RefFS := ⟨fun _ => .notExist, some packedLinesW⟩

/-- Ref filesystem with no packed-refs file at all. -/
def fsNoPackedW : RefFS := ⟨fun _ => .notExist, none⟩

/-- A 40-character hex content for a direct (non-symbolic) loose ref. -/
def hexContentW : List Char := List.replicate 40 'a'

/-- Ref filesystem whose only loose ref holds a bare 40-hex identifier. -/
def fsLooseHexW : RefFS :=
  ⟨fun p => if p = "refs/heads/main" then .ok hexContentW else .notExist, none⟩

/-- The parsed commit record the cache fixtures produce. -/
def cW : Commit := ⟨0, [1], 7, "m"⟩

/-- Repository handle where id `5` resolves to data stream `42` which
parses to `cW`; the cache starts `nil`. -/
def rW : CRepo :=
  { object := fun i => if i = 5 then .ok ⟨ObjectCommit, 3, 42⟩ else .error (.objectNotFound i)
    parseCommitData := fun d => if d = 42 then .ok cW else .error (.parseError "bad")
    commitCache := none }

/-- Repository handle where every object resolution fails. -/
def rBadW : CRepo :=
  { object := fun i => .error (.objectNotFound i)
    parseCommitData := fun _ => .error (.parseError "bad")
    commitCache := none }

/-! ## Helper lemmas -/

theorem findObjectPack_eq_first (files : List IdxFile) (id : Nat) :
    findObjectPack files id =
      (specFirstPack files id).bind
        (fun f => (f.offsetValues id).map (fun off => (f, off))) := by
  induction files with
  | nil => rfl
  | cons f rest ih =>
    simp only [findObjectPack, specFirstPack, List.find?]
    cases h : f.offsetValues id with
    | some off => simp [h]
    | none =>
      simp only [h, Option.isSome_none, Bool.false_eq_true, not_false_eq_true]
      simpa [specFirstPack] using ih

theorem findObjectPack_eq_none_iff (files : List IdxFile) (id : Nat) :
    findObjectPack files id = none ↔ ∀ f ∈ files, f.offsetValues id = none := by
  induction files with
  | nil => simp [findObjectPack]
  | cons f rest ih =>
    simp only [findObjectPack, List.mem_cons]
    cases h : f.offsetValues id with
    | some off => simp [h]
    | none =>
      simp only [ih]
      constructor
      · rintro hall g (rfl | hg)
        · exact h
        · exact hall g hg
      · intro hall g hg
        exact hall g (Or.inr hg)

/-! ## Claim theorems -/

/-- C10: `ObjectType.String` returns `"commit"`, `"tree"` and `"blob"` for
the commit, tree and blob constants, and the empty string for `ObjectTag`
and every other `ObjectType` value. -/
theorem ObjectType_string_cases :
    ObjectType.string ObjectCommit = "commit" ∧
    ObjectType.string ObjectTree = "tree" ∧
    ObjectType.string ObjectBlob = "blob" ∧
    ObjectType.string ObjectTag = "" ∧
    ∀ t : ObjectType, t ≠ ObjectCommit → t ≠ ObjectTree → t ≠ ObjectBlob →
      ObjectType.string t = "" := by
  refine ⟨rfl, rfl, rfl, rfl, ?_⟩
  intro t h1 h2 h3
  simp [ObjectType.string, h1, h2, h3]

/-- Witness for C10 at the value `0x50`, which is none of the four
constants. -/
theorem ObjectType_string_cases_witness : ObjectType.string 0x50 = "" :=
  ObjectType_string_cases.2.2.2.2 0x50 (by decide) (by decide) (by decide)

/-- C3: `getRawObject` is loose-first: a successful loose read is returned
verbatim, and on a not-exist loose failure the first pack index in
discovery order containing the id supplies the archive path and offset
passed to the pack decoder. -/
theorem getRawObject_loose_first (repo : ObjRepo) (id : Nat) (metaOnly : Bool) :
    (∀ o, repo.readLoose id metaOnly = .found o →
      getRawObject repo id metaOnly = .ok o) ∧
    (repo.readLoose id metaOnly = .notExist →
      ∀ pack off, specFirstPack repo.indexfiles id = some pack →
        pack.offsetValues id = some off →
        getRawObject repo id metaOnly =
          match repo.readPack pack.packpath off metaOnly with
          | .ok o => .ok o
          | .error code => .error (.ioError code)) := by
  constructor
  · intro o h
    simp [getRawObject, h]
  · intro h pack off hfind hoff
    have hpk : findObjectPack repo.indexfiles id = some (pack, off) := by
      rw [findObjectPack_eq_first, hfind]
      simp [hoff]
    simp only [getRawObject, h, hpk]
    cases repo.readPack pack.packpath off metaOnly <;> rfl

/-- Witness for C3: the loose id `1` returns the loose object verbatim;
the packed-only id `2` decodes from the second index's archive/offset. -/
theorem getRawObject_loose_first_witness :
    getRawObject repoW 1 false = .ok objW ∧
    getRawObject repoW 2 false = .ok packObjW := by
  constructor
  · exact (getRawObject_loose_first repoW 1 false).1 objW rfl
  · have h := (getRawObject_loose_first repoW 2 false).2 rfl idxW 333 rfl rfl
    exact h.trans rfl

/-- C4: `getRawObject` fails with `ObjectNotFound` carrying the queried id
exactly when the loose read reports not-exist and no pack index contains
the id; a loose-store error other than not-exist propagates verbatim. -/
theorem getRawObject_objectNotFound_iff (repo : ObjRepo) (id : Nat) (metaOnly : Bool) :
    (getRawObject repo id metaOnly = .error (.objectNotFound id) ↔
      (repo.readLoose id metaOnly = .notExist ∧
        ∀ f ∈ repo.indexfiles, f.offsetValues id = none)) ∧
    (∀ code, repo.readLoose id metaOnly = .ioError code →
      getRawObject repo id metaOnly = .error (.ioError code)) := by
  constructor
  · cases hl : repo.readLoose id metaOnly with
    | found o => simp [getRawObject, hl]
    | ioError code => simp [getRawObject, hl]
    | notExist =>
      cases hp : findObjectPack repo.indexfiles id with
      | none =>
        simp only [getRawObject, hl, hp, true_iff, true_and]
        exact (findObjectPack_eq_none_iff repo.indexfiles id).mp hp
      | some pr =>
        have hne : ¬ (∀ f ∈ repo.indexfiles, f.offsetValues id = none) := by
          intro hall
          rw [(findObjectPack_eq_none_iff repo.indexfiles id).mpr hall] at hp
          exact Option.noConfusion hp
        simp only [getRawObject, hl, hp]
        cases hr : repo.readPack pr.1.packpath pr.2 metaOnly <;> simp [hne]
  · intro code h
    simp [getRawObject, h]

/-- Witness for C4: the absent id `4` yields `ObjectNotFound 4`; a
non-not-exist loose error (`IOError 13`) propagates verbatim. -/
theorem getRawObject_objectNotFound_iff_witness :
    getRawObject repoW 4 false = .error (.objectNotFound 4) ∧
    getRawObject repoIOErrW 2 false = .error (.ioError 13) := by
  constructor
  · exact (getRawObject_objectNotFound_iff repoW 4 false).1.mpr ⟨rfl, by decide⟩
  · exact (getRawObject_objectNotFound_iff repoIOErrW 2 false).2 13 rfl

theorem scanPackedLines_eq_lookup (refpath : String) (lines : List String) :
    scanPackedLines refpath lines =
      match specPackedLookup refpath lines with
      | some c => .ok c
      | none => .error (.refNotFound refpath) := by
  induction lines with
  | nil => rfl
  | cons line rest ih =>
    simp only [scanPackedLines, specPackedLookup, List.filterMap_cons]
    cases hp : parseRefLine line with
    | error e => simpa [specPackedLookup, hp, Except.toOption] using ih
    | ok r =>
      simp only [hp, Except.toOption, List.find?]
      by_cases hr : r.refpath = refpath
      · simp [hr]
      · simpa [specPackedLookup, hr] using ih

/-- C6: the packed-refs lookup scans linearly; the first line that parses
as a two-token entry and whose ref-path equals the query supplies the
identifier; lines that fail to parse (comments, peel annotations,
corruption) are skipped without aborting; an absent packed-refs file is
`NoPackedRefs`, distinct from `RefNotFound`; an exhausted scan is
`RefNotFound`. -/
theorem getCommitIdOfPackedRef_spec (fs : RefFS) (refpath : String) :
    (fs.packed = none → getCommitIdOfPackedRef fs refpath = .error .noPackedRefs) ∧
    (∀ p, (GitError.noPackedRefs : GitError) ≠ .refNotFound p) ∧
    (∀ lines, fs.packed = some lines →
      getCommitIdOfPackedRef fs refpath =
        match specPackedLookup refpath lines with
        | some c => .ok c
        | none => .error (.refNotFound refpath)) := by
  refine ⟨?_, ?_, ?_⟩
  · intro h
    simp [getCommitIdOfPackedRef, h]
  · intro p h
    exact GitError.noConfusion h
  · intro lines h
    simp only [getCommitIdOfPackedRef, h]
    exact scanPackedLines_eq_lookup refpath lines

/-- Witness for C6 on the fixture file: a missing packed-refs file is
`NoPackedRefs`; the query skips the comment, the tag entry, the peel
annotation and the corrupt line and returns the branch entry's id. -/
theorem getCommitIdOfPackedRef_spec_witness :
    getCommitIdOfPackedRef fsNoPackedW "refs/heads/main" = .error .noPackedRefs ∧
    getCommitIdOfPackedRef fsPackedW "refs/heads/main" =
      .ok "cccccccccccccccccccccccccccccccccccccccc" := by
  constructor
  · exact (getCommitIdOfPackedRef_spec fsNoPackedW "refs/heads/main").1 rfl
  · have h := (getCommitIdOfPackedRef_spec fsPackedW "refs/heads/main").2.2 packedLinesW rfl
    exact h.trans (by rfl)

/-- C5: when the ref content does not match the symbolic `ref: <path>\n`
pattern, content of at least 40 bytes whose first 40 bytes are valid hex
yields those bytes as the identifier; shorter content, or a non-hex
40-byte head, is a parse error, which is distinct from `RefNotFound`. -/
theorem getCommitIdOfRef_plain_content (fs : RefFS) (refpath : String) (n : Nat)
    (f : List Char) (hloose : fs.loose refpath = .ok f)
    (hplain : findRefTarget f = none) :
    (f.length < 40 →
      getCommitIdOfRef fs (n + 1) refpath =
        some (.error (.parseError "ObjectID hash too short"))) ∧
    (40 ≤ f.length → IsObjectIDHex (f.take 40) = true →
      getCommitIdOfRef fs (n + 1) refpath = some (.ok (String.mk (f.take 40)))) ∧
    (40 ≤ f.length → IsObjectIDHex (f.take 40) = false →
      getCommitIdOfRef fs (n + 1) refpath =
        some (.error (.parseError "heads file wrong ObjectID string"))) ∧
    (∀ msg p, (GitError.parseError msg : GitError) ≠ .refNotFound p) := by
  have hstep : resolveRefStep fs refpath =
      (if f.length < 40 then .error (.parseError "ObjectID hash too short")
       else if IsObjectIDHex (f.take 40) then .ok (.inr (String.mk (f.take 40)))
       else .error (.parseError "heads file wrong ObjectID string")) := by
    simp only [resolveRefStep, hloose, hplain]
  refine ⟨?_, ?_, ?_, fun msg p h => GitError.noConfusion h⟩
  · intro hlen
    simp [getCommitIdOfRef, hstep, hlen]
  · intro hlen hhex
    have hnot : ¬ (f.length < 40) := not_lt.mpr hlen
    simp [getCommitIdOfRef, hstep, hnot, hhex]
  · intro hlen hhex
    have hnot : ¬ (f.length < 40) := not_lt.mpr hlen
    simp [getCommitIdOfRef, hstep, hnot, hhex]

/-- Witness for C5: a loose ref holding 40 hex characters resolves to
exactly those characters as the identifier. -/
theorem getCommitIdOfRef_plain_content_witness :
    getCommitIdOfRef fsLooseHexW 1 "refs/heads/main" = some (.ok (String.mk hexContentW)) := by
  have h := (getCommitIdOfRef_plain_content fsLooseHexW "refs/heads/main" 0 hexContentW rfl
    (by decide)).2.1 (by decide) (by decide)
  exact h.trans (by rfl)

/-- C2: `getCommitIdOfRef` has no bound on symbolic indirection: on a
two-ref cycle it produces no result and no error within any finite number
of loop iterations (and the error taxonomy has no `RefCycle` value), so
the claimed fixed maximum with a distinct error does not exist in the
code. -/
theorem getCommitIdOfRef_cycle_unbounded :
    ∀ n : Nat, getCommitIdOfRef cycFS n "refs/heads/a" = none ∧
      getCommitIdOfRef cycFS n "refs/heads/b" = none := by
  intro n
  induction n with
  | zero => exact ⟨rfl, rfl⟩
  | succ n ih =>
    have ha : resolveRefStep cycFS "refs/heads/a" = .ok (.inl "refs/heads/b") := by rfl
    have hb : resolveRefStep cycFS "refs/heads/b" = .ok (.inl "refs/heads/a") := by rfl
    exact ⟨by simp only [getCommitIdOfRef, ha]; exact ih.2,
      by simp only [getCommitIdOfRef, hb]; exact ih.1⟩

theorem getCommitMiss_count (r : CRepo) (id : Nat) : (getCommitMiss r id).2.2 = 1 := by
  unfold getCommitMiss
  cases r.object id with
  | error e => rfl
  | ok o =>
    dsimp only
    cases r.parseCommitData o.data with
    | error e => rfl
    | ok c0 => rfl

theorem getCommitMiss_ok_cache (r r' : CRepo) (id : Nat) (c : Commit) (n : Nat)
    (h : getCommitMiss r id = (.ok c, r', n)) :
    r'.commitCache = some (fun j => if j = id then some c else cacheLookup r j) := by
  unfold getCommitMiss at h
  cases ho : r.object id with
  | error e => rw [ho] at h; simp [Prod.ext_iff] at h
  | ok o =>
    rw [ho] at h
    dsimp only at h
    cases hp : r.parseCommitData o.data with
    | error e => rw [hp] at h; simp [Prod.ext_iff] at h
    | ok c0 =>
      rw [hp] at h
      simp only [Prod.ext_iff, Except.ok.injEq] at h
      obtain ⟨h1, h2, _⟩ := h
      rw [← h2, ← h1]

/-- C7: a successful `getCommit` leaves the cache holding exactly the
returned record for the id, and a repeated call returns the field-equal
record from the cache with no further object resolution or decode. -/
theorem getCommit_idempotent (r r' : CRepo) (id : Nat) (c : Commit) (n : Nat)
    (h : getCommit r id = (.ok c, r', n)) :
    getCommit r' id = (.ok c, r', 0) ∧ cacheLookup r' id = some c := by
  unfold getCommit at h
  cases hc : r.commitCache with
  | some cache =>
    rw [hc] at h
    dsimp only at h
    cases hci : cache id with
    | some c0 =>
      rw [hci] at h
      simp only [Prod.ext_iff, Except.ok.injEq] at h
      obtain ⟨h1, h2, _⟩ := h
      subst h1 h2
      constructor
      · unfold getCommit
        rw [hc]
        dsimp only
        rw [hci]
      · unfold cacheLookup
        rw [hc]
        exact hci
    | none =>
      rw [hci] at h
      have hcache := getCommitMiss_ok_cache r r' id c n h
      constructor
      · unfold getCommit
        rw [hcache]
        simp
      · unfold cacheLookup
        rw [hcache]
        simp
  | none =>
    rw [hc] at h
    dsimp only at h
    have hcache := getCommitMiss_ok_cache _ r' id c n h
    constructor
    · unfold getCommit
      rw [hcache]
      simp
    · unfold cacheLookup
      rw [hcache]
      simp

/-- Witness for C7: after the first successful `getCommit` on the fixture
repository, the second call returns the same record from the cache with
zero object resolutions, leaving the handle unchanged. -/
theorem getCommit_idempotent_witness :
    getCommit ((getCommit rW 5).2.1) 5 = (.ok { cW with id := 5 }, (getCommit rW 5).2.1, 0) ∧
    cacheLookup ((getCommit rW 5).2.1) 5 = some { cW with id := 5 } :=
  getCommit_idempotent rW ((getCommit rW 5).2.1) 5 { cW with id := 5 }
    ((getCommit rW 5).2.2) rfl

/-- C9: a failed `getCommit` leaves every cache entry as it was (in
particular no entry for the queried id is inserted), so a retry performs
object resolution again instead of serving a stale record. -/
theorem getCommit_failure_cache_unchanged (r r' : CRepo) (id : Nat) (e : GitError) (n : Nat)
    (h : getCommit r id = (.error e, r', n)) :
    (∀ j, cacheLookup r' j = cacheLookup r j) ∧ (getCommit r' id).2.2 = 1 := by
  have hmiss : ∀ (r₀ : CRepo) (hr : getCommitMiss r₀ id = (.error e, r', n)), r' = r₀ := by
    intro r₀ hr
    unfold getCommitMiss at hr
    cases ho : r₀.object id with
    | error e0 =>
      rw [ho] at hr
      simp only [Prod.ext_iff] at hr
      exact hr.2.1.symm
    | ok o =>
      rw [ho] at hr
      dsimp only at hr
      cases hp : r₀.parseCommitData o.data with
      | error e0 =>
        rw [hp] at hr
        simp only [Prod.ext_iff] at hr
        exact hr.2.1.symm
      | ok c0 => rw [hp] at hr; simp [Prod.ext_iff] at hr
  unfold getCommit at h
  cases hc : r.commitCache with
  | some cache =>
    rw [hc] at h
    dsimp only at h
    cases hci : cache id with
    | some c0 => rw [hci] at h; simp [Prod.ext_iff] at h
    | none =>
      rw [hci] at h
      have hr' : r' = r := hmiss r h
      subst hr'
      refine ⟨fun j => rfl, ?_⟩
      unfold getCommit
      rw [hc]
      dsimp only
      rw [hci]
      exact getCommitMiss_count _ id
  | none =>
    rw [hc] at h
    dsimp only at h
    have hr' : r' = { r with commitCache := some (fun _ => none) } := hmiss _ h
    subst hr'
    constructor
    · intro j
      unfold cacheLookup
      rw [hc]
    · unfold getCommit
      dsimp only
      exact getCommitMiss_count _ id

/-- Witness for C9: the always-failing fixture repository has the same
(empty) cache contents for the queried id after the failure, and the
retry performs one more object resolution. -/
theorem getCommit_failure_cache_unchanged_witness :
    cacheLookup ((getCommit rBadW 7).2.1) 7 = cacheLookup rBadW 7 ∧
    (getCommit ((getCommit rBadW 7).2.1) 7).2.2 = 1 :=
  have h := getCommit_failure_cache_unchanged rBadW ((getCommit rBadW 7).2.1) 7
    (.objectNotFound 7) ((getCommit rBadW 7).2.2) rfl
  ⟨h.1 7, h.2⟩

theorem commitsBetweenLoop_eq_spec (g : Nat → Option Commit) (before : Commit) :
    ∀ (fuel : Nat) (cur : Commit) (l : List Commit),
      commitsBetweenLoop g before fuel cur l =
        (specAncestorsFrom g before fuel cur).map (fun rest => l ++ rest) := by
  intro fuel
  induction fuel with
  | zero => intro cur l; rfl
  | succ fuel ih =>
    intro cur l
    simp only [commitsBetweenLoop, specAncestorsFrom]
    by_cases hb : cur.id = before.id
    · simp [hb]
    · simp only [hb, if_false]
      by_cases hp : cur.parents.length = 0
      · simp [hp]
      · simp only [hp, if_false]
        cases hpar : parentCommit g cur 0 with
        | none => simp
        | some par =>
          cases hs : specAncestorsFrom g before fuel par with
          | none => simp [ih par (l ++ [cur]), hs]
          | some rest => simp [ih par (l ++ [cur]), hs]

/-- C8: `CommitsBetween` computes exactly the spec's first-parent walk:
the commits reached following only the first parent from `last`, newest
first, excluding `before`, stopping at `before`'s id or after a
parentless (root) commit, and empty when `last` is absent or has no
parents. -/
theorem CommitsBetween_eq_spec (g : Nat → Option Commit) (fuel : Nat)
    (last : Option Commit) (before : Commit) :
    CommitsBetween g fuel last before = specAncestorsBetween g fuel last before := by
  cases last with
  | none => rfl
  | some lastc =>
    simp only [CommitsBetween, specAncestorsBetween]
    by_cases hp : lastc.parents.length = 0
    · simp [hp]
    · simp only [hp, if_false]
      simpa using commitsBetweenLoop_eq_spec g before fuel lastc []

/-- C1 counterexample: on the diamond `gDup` (merge `0` over parents `1`
and `2`, shared root `3`, with the root's committer instant equal to
commit `1`'s) the returned sequence contains the ancestor id `3` twice:
the forward scan inserting the second occurrence stopped at the
equal-instant node `1` before reaching the occurrence of `3` already
present downstream. -/
theorem commitsBefore_duplicate_insertion :
    (getCommitsBefore gDup 20 0).map resultIds = some [0, 1, 3, 3, 2] ∧
    ((getCommitsBefore gDup 20 0).map resultIds).map (fun ids => ids.count 3) = some 2 := by
  constructor
  · rfl
  · rfl

/-- C1 amended: the duplicate check short-circuits only when the forward
scan from the anchor reaches a node carrying the commit's id at or before
the timestamp-determined insertion point; in that case `commitsBefore`
returns without inserting and without recursing into parents, leaving the
traversal state unchanged. -/
theorem commitsBefore_dedup_scan_hit (g : Nat → Option Commit) (fuel : Nat)
    (st : TravState) (p id : Nat) (commit : Commit)
    (hd : Nat × Commit) (rest : List (Nat × Commit))
    (hg : g id = some commit)
    (hsplit : splitTok st.list p = some (hd, rest))
    (hscan : scanIns commit hd rest = none) :
    commitsBefore g (fuel + 1) st (some p) id = some st := by
  simp only [commitsBefore, hg, hsplit, hscan]

/-- Witness for the amended C1: a scan that hits the duplicate at the
anchor itself returns the state unchanged. -/
theorem commitsBefore_dedup_scan_hit_witness :
    commitsBefore gHitW 5 ⟨[(0, cHitW)], 1⟩ (some 0) 3 = some ⟨[(0, cHitW)], 1⟩ :=
  commitsBefore_dedup_scan_hit gHitW 4 ⟨[(0, cHitW)], 1⟩ 0 3 cHitW (0, cHitW) [] rfl rfl rfl

end GoGit
